import Mathlib

/-!
# Verification of the kreuzberg image-OCR pipeline control layer

Shallow embedding of the functions in `kreuzberg/_extractors/_base.py` and
`kreuzberg/_multiprocessing/sync_paddleocr.py`: image deduplication, memory-limit
filtering, OCR backend configuration resolution, the async OCR dispatch gate, and
the threaded batch OCR runner.  Byte payloads are modelled as `List Nat` (one entry
per byte), sizes as `Nat` (Python `len`), and fallible operations as `Except`.
-/

namespace Kreuzberg

/-- An image recovered from a document (`ExtractedImage` in `kreuzberg._types`;
the class itself is outside the translated sources, its fields are taken from their
construction and use in `_base.py` and the test suite: raw byte payload, format tag,
optional filename, optional page number, optional pixel dimensions). -/
structure ExtractedImage where
  data : List Nat
  format : String
  filename : Option String := none
  page_number : Option Nat := none
  dimensions : Option (Nat × Nat) := none
  deriving Repr, DecidableEq

/-- The byte size of an image's payload: Python `len(img.data)`. -/
def imgSize (img : ExtractedImage) : Nat := img.data.length

/-- Model of `ExtractionResult`, restricted to the fields this control layer constructs and
reads: content string, MIME type, metadata mapping (string keys and values here),
chunks.  The remaining fields (tables, entities, …) are out of this core's scope. -/
structure ExtractionResult where
  content : String
  mime_type : String
  metadata : List (String × String)
  chunks : List String := []
  deriving Repr, DecidableEq

/-- The constant `PLAIN_TEXT_MIME_TYPE` from `kreuzberg/_mime_types.py`. -/
def PLAIN_TEXT_MIME_TYPE : String := "text/plain"

/-- Model of `ImageOCRResult` (`OcrOutcome` in the spec): the outcome of attempting OCR on one
image.  Confidence scores and wall-clock durations are opaque to the control logic;
they are modelled as optional naturals. -/
structure ImageOCRResult where
  image : ExtractedImage
  ocr_result : ExtractionResult
  confidence_score : Option Nat := none
  processing_time : Option Nat := none
  skipped_reason : Option String := none
  deriving Repr, DecidableEq

/-- The constant `MAX_TOTAL_IMAGE_SIZE = 100 * 1024 * 1024` (`_base.py`). -/
def MAX_TOTAL_IMAGE_SIZE : Nat := 100 * 1024 * 1024

/-- The constant `MAX_SINGLE_IMAGE_SIZE = 50 * 1024 * 1024` (`_base.py`). -/
def MAX_SINGLE_IMAGE_SIZE : Nat := 50 * 1024 * 1024

/-! ## Memory-limit filter (`Extractor._check_image_memory_limits`) -/

/-- One insertion step of a stable ascending sort by payload size.  Python's
`sorted(images, key=lambda x: len(x.data))` is a stable sort; a stable sort by a
key is uniquely determined by the key order and the original order, so insertion
sort that places an element before the first strictly larger-or-equal—i.e. keeps
earlier elements ahead of later equal-sized ones—produces the same list. -/
def insertBySize (img : ExtractedImage) : List ExtractedImage → List ExtractedImage
  | [] => [img]
  | y :: ys => if imgSize img ≤ imgSize y then img :: y :: ys else y :: insertBySize img ys

/-- Stable ascending sort by payload size: `sorted(images, key=lambda x: len(x.data))`. -/
def sortBySize (images : List ExtractedImage) : List ExtractedImage :=
  images.foldr insertBySize []

/-- The greedy loop of `_check_image_memory_limits` on the sorted list: skip any
image over the single-image limit, accept an image while the running accepted
total stays within the aggregate limit. -/
def greedyAccept (current_size : Nat) : List ExtractedImage → List ExtractedImage
  | [] => []
  | img :: rest =>
    if imgSize img > MAX_SINGLE_IMAGE_SIZE then greedyAccept current_size rest
    else if current_size + imgSize img ≤ MAX_TOTAL_IMAGE_SIZE then
      img :: greedyAccept (current_size + imgSize img) rest
    else greedyAccept current_size rest

/-- Translation of `Extractor._check_image_memory_limits` (`_base.py`, lines 96–145): if the total
payload size fits the aggregate limit, drop only individually oversized images,
preserving order; otherwise sort ascending by size and greedily accept. -/
def check_image_memory_limits (images : List ExtractedImage) : List ExtractedImage :=
  if images = [] then []
  else
    let total_size := (images.map imgSize).sum
    if total_size > MAX_TOTAL_IMAGE_SIZE then
      greedyAccept 0 (sortBySize images)
    else
      images.filter (fun img => ¬ imgSize img > MAX_SINGLE_IMAGE_SIZE)

/-- The memory filter as the claim states it: images whose individual size is within
the single-image limit, in original order, when the total fits the aggregate limit;
otherwise the greedy selection over the ascending-by-size ordering, accepting each
candidate that fits the single-image limit and keeps the accepted running total
within the aggregate limit. -/
def memoryFilterClaim (images : List ExtractedImage) : List ExtractedImage :=
  if (images.map imgSize).sum ≤ MAX_TOTAL_IMAGE_SIZE then
    images.filter (fun img => imgSize img ≤ MAX_SINGLE_IMAGE_SIZE)
  else
    greedyAccept 0 (sortBySize images)

/-! ## Deduplication (`Extractor._deduplicate_images`) -/

/-- One bit-round of the reflected CRC-32 computation (polynomial `0xEDB88320`),
the algorithm implemented by `zlib.crc32`. -/
def crc32_round (crc : Nat) : Nat :=
  if crc % 2 = 1 then (crc / 2) ^^^ 0xEDB88320 else crc / 2

/-- Absorb one byte into the running CRC-32 state. -/
def crc32_byte (crc byte : Nat) : Nat :=
  crc32_round^[8] (crc ^^^ (byte % 256))

/-- Model of `zlib.crc32(data)`: the standard CRC-32 checksum of a byte string. -/
def crc32 (data : List Nat) : Nat :=
  (data.foldl crc32_byte 0xFFFFFFFF) ^^^ 0xFFFFFFFF

/-- The value `zlib.crc32(img.data) & 0xFFFFFFFF`, the per-image hash used by
`_deduplicate_images`. -/
def imgHash (img : ExtractedImage) : Nat := crc32 img.data &&& 0xFFFFFFFF

/-- The loop of `_deduplicate_images`: keep an image whose hash has not been seen,
record its hash; drop an image whose hash was already seen. -/
def dedupGo (seen : List Nat) : List ExtractedImage → List ExtractedImage
  | [] => []
  | img :: rest =>
    if imgHash img ∈ seen then dedupGo seen rest
    else img :: dedupGo (imgHash img :: seen) rest

/-- Translation of `Extractor._deduplicate_images` (`_base.py`, lines 147–165), with the
configuration toggle `config.deduplicate_images` passed explicitly. -/
def deduplicate_images (deduplicate : Bool) (images : List ExtractedImage) :
    List ExtractedImage :=
  if ¬ deduplicate ∨ images = [] then images else dedupGo [] images

/-- Deduplication as the claim states it: walking the list with the images already
examined at hand, an image is kept exactly when no earlier image bears the same
checksum — i.e. for each distinct checksum exactly the first image bearing it is
kept, in original input order. -/
def keptFirst (earlier : List ExtractedImage) : List ExtractedImage → List ExtractedImage
  | [] => []
  | x :: xs =>
    if ∀ y ∈ earlier, imgHash y ≠ imgHash x then x :: keptFirst (earlier ++ [x]) xs
    else keptFirst (earlier ++ [x]) xs

theorem dedupGo_cons (seen : List Nat) (x : ExtractedImage) (xs : List ExtractedImage) :
    dedupGo seen (x :: xs) =
      if imgHash x ∈ seen then dedupGo seen xs
      else x :: dedupGo (imgHash x :: seen) xs := rfl

theorem dedupGo_eq_keptFirst (xs : List ExtractedImage) :
    ∀ (seen : List Nat) (pre : List ExtractedImage),
      (∀ h, h ∈ seen ↔ ∃ y ∈ pre, imgHash y = h) →
      dedupGo seen xs = keptFirst pre xs := by
  induction xs with
  | nil => intro seen pre _; rfl
  | cons x xs ih =>
    intro seen pre hseen
    rw [dedupGo_cons]
    by_cases hx : imgHash x ∈ seen
    · obtain ⟨y, hy, hyh⟩ := (hseen _).mp hx
      rw [if_pos hx, keptFirst, if_neg (fun hall => hall y hy hyh)]
      refine ih seen (pre ++ [x]) (fun h => ?_)
      rw [hseen h]
      constructor
      · rintro ⟨z, hz, hzh⟩; exact ⟨z, List.mem_append_left _ hz, hzh⟩
      · rintro ⟨z, hz, hzh⟩
        rcases List.mem_append.mp hz with hz | hz
        · exact ⟨z, hz, hzh⟩
        · rw [List.mem_singleton.mp hz] at hzh
          exact ⟨y, hy, by rw [hyh, ← hzh]⟩
    · have hall : ∀ y ∈ pre, imgHash y ≠ imgHash x := by
        intro y hy hcontra
        exact hx ((hseen _).mpr ⟨y, hy, hcontra⟩)
      rw [if_neg hx, keptFirst, if_pos hall]
      refine congrArg (x :: ·) (ih _ (pre ++ [x]) (fun h => ?_))
      constructor
      · intro hmem
        rcases List.mem_cons.mp hmem with hmem | hmem
        · exact ⟨x, List.mem_append_right _ (List.mem_singleton.mpr rfl), hmem.symm⟩
        · obtain ⟨z, hz, hzh⟩ := (hseen _).mp hmem
          exact ⟨z, List.mem_append_left _ hz, hzh⟩
      · rintro ⟨z, hz, hzh⟩
        rcases List.mem_append.mp hz with hz | hz
        · exact List.mem_cons_of_mem _ ((hseen _).mpr ⟨z, hz, hzh⟩)
        · rw [List.mem_singleton.mp hz] at hzh
          exact hzh ▸ List.mem_cons_self _ _

/-- The hashes of `dedupGo seen xs` are pairwise distinct and avoid `seen`. -/
theorem dedupGo_nodup (xs : List ExtractedImage) :
    ∀ seen, ((dedupGo seen xs).map imgHash).Nodup ∧
      ∀ y ∈ dedupGo seen xs, imgHash y ∉ seen := by
  induction xs with
  | nil => intro seen; exact ⟨List.nodup_nil, by intro y hy; cases hy⟩
  | cons x xs ih =>
    intro seen
    rw [dedupGo_cons]
    by_cases hx : imgHash x ∈ seen
    · simpa [hx] using ih seen
    · obtain ⟨hnodup, havoid⟩ := ih (imgHash x :: seen)
      simp only [hx, if_neg, ite_false, List.map_cons, List.nodup_cons]
      refine ⟨⟨fun hmem => ?_, hnodup⟩, ?_⟩
      · obtain ⟨y, hy, hyh⟩ := List.mem_map.mp hmem
        exact (havoid y hy) (hyh ▸ List.mem_cons_self _ _)
      · intro y hy
        rcases List.mem_cons.mp hy with hy | hy
        · exact hy ▸ hx
        · exact fun hmem => (havoid y hy) (List.mem_cons_of_mem _ hmem)

/-- The loop `dedupGo` is the identity on a list with pairwise-distinct hashes avoiding
`seen`. -/
theorem dedupGo_self (xs : List ExtractedImage) :
    ∀ seen, ((xs.map imgHash).Nodup) → (∀ y ∈ xs, imgHash y ∉ seen) →
      dedupGo seen xs = xs := by
  induction xs with
  | nil => intro seen _ _; rfl
  | cons x xs ih =>
    intro seen hnodup havoid
    rw [dedupGo_cons, if_neg (havoid x (List.mem_cons_self _ _))]
    refine congrArg (x :: ·) (ih _ (List.nodup_cons.mp (by simpa using hnodup)).2 ?_)
    intro y hy
    intro hmem
    rcases List.mem_cons.mp hmem with hmem | hmem
    · exact (List.nodup_cons.mp (by simpa using hnodup)).1
        (hmem ▸ List.mem_map_of_mem imgHash hy)
    · exact havoid y (List.mem_cons_of_mem _ hy) hmem

theorem check_eq_claim (images : List ExtractedImage) :
    check_image_memory_limits images = memoryFilterClaim images := by
  unfold check_image_memory_limits memoryFilterClaim
  rcases images with _ | ⟨img, rest⟩
  · simp
  · simp only [if_neg (by simp : ¬(img :: rest = []))]
    rcases le_or_lt ((List.map imgSize (img :: rest)).sum) MAX_TOTAL_IMAGE_SIZE with h | h
    · rw [if_neg (by omega), if_pos h]
      congr 1
      funext x
      by_cases hx : imgSize x ≤ MAX_SINGLE_IMAGE_SIZE
      · simp [hx, Nat.not_lt.mpr hx]
      · simp [hx, Nat.lt_of_not_le hx]
    · rw [if_pos (by omega), if_neg (by omega)]

theorem greedyAccept_cons (cur : Nat) (img : ExtractedImage) (rest : List ExtractedImage) :
    greedyAccept cur (img :: rest) =
      if imgSize img > MAX_SINGLE_IMAGE_SIZE then greedyAccept cur rest
      else if cur + imgSize img ≤ MAX_TOTAL_IMAGE_SIZE then
        img :: greedyAccept (cur + imgSize img) rest
      else greedyAccept cur rest := rfl

/-- The greedy loop keeps the accepted running total within the aggregate limit. -/
theorem greedyAccept_sum (xs : List ExtractedImage) :
    ∀ cur, cur ≤ MAX_TOTAL_IMAGE_SIZE →
      cur + ((greedyAccept cur xs).map imgSize).sum ≤ MAX_TOTAL_IMAGE_SIZE := by
  induction xs with
  | nil => intro cur hcur; simpa [greedyAccept] using hcur
  | cons img rest ih =>
    intro cur hcur
    rw [greedyAccept_cons]
    by_cases h1 : imgSize img > MAX_SINGLE_IMAGE_SIZE
    · rw [if_pos h1]; exact ih cur hcur
    · rw [if_neg h1]
      by_cases h2 : cur + imgSize img ≤ MAX_TOTAL_IMAGE_SIZE
      · rw [if_pos h2]
        have := ih (cur + imgSize img) h2
        simp only [List.map_cons, List.sum_cons]
        omega
      · rw [if_neg h2]; exact ih cur hcur

/-- Every image the greedy loop accepts is within the single-image limit. -/
theorem greedyAccept_single (xs : List ExtractedImage) :
    ∀ cur, ∀ img ∈ greedyAccept cur xs, imgSize img ≤ MAX_SINGLE_IMAGE_SIZE := by
  induction xs with
  | nil => intro cur img h; cases h
  | cons x rest ih =>
    intro cur img hmem
    rw [greedyAccept_cons] at hmem
    by_cases h1 : imgSize x > MAX_SINGLE_IMAGE_SIZE
    · rw [if_pos h1] at hmem; exact ih cur img hmem
    · rw [if_neg h1] at hmem
      by_cases h2 : cur + imgSize x ≤ MAX_TOTAL_IMAGE_SIZE
      · rw [if_pos h2] at hmem
        rcases List.mem_cons.mp hmem with hmem | hmem
        · exact hmem ▸ Nat.le_of_not_lt h1
        · exact ih _ img hmem
      · rw [if_neg h2] at hmem; exact ih cur img hmem

theorem sum_map_filter_le (p : ExtractedImage → Bool) (xs : List ExtractedImage) :
    ((xs.filter p).map imgSize).sum ≤ (xs.map imgSize).sum := by
  induction xs with
  | nil => simp
  | cons x rest ih =>
    by_cases hx : p x
    · simp only [List.filter_cons, hx, ite_true, List.map_cons, List.sum_cons]
      omega
    · simp only [List.filter_cons, hx, ite_false, List.map_cons, List.sum_cons,
        Bool.false_eq_true]
      omega

/-- C7: for every input image list, the output of `_check_image_memory_limits`
satisfies both memory bounds — the aggregate payload size of the returned images is
at most the 100 MiB aggregate limit, and no returned image's payload exceeds the
50 MiB single-image limit. -/
theorem check_image_memory_limits_bounds (images : List ExtractedImage) :
    (((check_image_memory_limits images).map imgSize).sum ≤ MAX_TOTAL_IMAGE_SIZE) ∧
    ∀ img ∈ check_image_memory_limits images, imgSize img ≤ MAX_SINGLE_IMAGE_SIZE := by
  rw [check_image_memory_limits]
  by_cases hnil : images = []
  · rw [if_pos hnil]
    exact ⟨by simp [MAX_TOTAL_IMAGE_SIZE], by intro img h; cases h⟩
  · rw [if_neg hnil]
    by_cases htot : (images.map imgSize).sum > MAX_TOTAL_IMAGE_SIZE
    · rw [if_pos htot]
      refine ⟨?_, fun img hmem => greedyAccept_single _ 0 img hmem⟩
      simpa using greedyAccept_sum (sortBySize images) 0 (Nat.zero_le _)
    · rw [if_neg htot]
      constructor
      · exact le_trans (sum_map_filter_le _ images) (Nat.le_of_not_lt htot)
      · intro img hmem
        have := (List.mem_filter.mp hmem).2
        simp only [decide_eq_true_eq] at this
        exact Nat.le_of_not_lt this

/-- Witness for `check_image_memory_limits_bounds` at a concrete one-image input. -/
theorem check_image_memory_limits_bounds_witness :
    ((check_image_memory_limits [{ data := [7, 8], format := "png" }]).map imgSize).sum
        ≤ MAX_TOTAL_IMAGE_SIZE ∧
    imgSize { data := [7, 8], format := "png" } ≤ MAX_SINGLE_IMAGE_SIZE :=
  ⟨(check_image_memory_limits_bounds [{ data := [7, 8], format := "png" }]).1,
   (check_image_memory_limits_bounds [{ data := [7, 8], format := "png" }]).2
     { data := [7, 8], format := "png" } (by decide)⟩

/-! ### Concrete 60/30/20 MiB scenario for the memory filter -/

/-- A test image of `n` zero bytes with the given filename. -/
def mkImg (n : Nat) (name : String) : ExtractedImage :=
  { data := List.replicate n 0, format := "png", filename := some name }

/-- One MiB, in bytes. -/
def mib : Nat := 1024 * 1024

theorem imgSize_mkImg (n : Nat) (name : String) : imgSize (mkImg n name) = n := by
  simp [imgSize, mkImg]

/-- C2: `_check_image_memory_limits` is exactly branch-determined by total input
size — it agrees everywhere with the claim-side description `memoryFilterClaim`
(within-limit inputs keep exactly the individually small images in order; over-limit
inputs take the greedy selection over the ascending-by-size ordering, with inclusive
boundaries) — and on any input of a 60 MiB, a 30 MiB and a 20 MiB image the 60 MiB
image is dropped while the other two are retained. -/
theorem check_image_memory_limits_branches :
    (∀ images, check_image_memory_limits images = memoryFilterClaim images) ∧
    ∀ a b c : ExtractedImage, imgSize a = 60 * mib → imgSize b = 30 * mib →
      imgSize c = 20 * mib → check_image_memory_limits [a, b, c] = [c, b] := by
  refine ⟨check_eq_claim, ?_⟩
  intro a b c ha hb hc
  have hsort : sortBySize [a, b, c] = [c, b, a] := by
    have s1 : insertBySize c [] = [c] := rfl
    have s2 : insertBySize b [c] = [c, b] := by
      rw [insertBySize, if_neg (by rw [hb, hc]; norm_num [mib]), insertBySize]
    have s3 : insertBySize a [c, b] = [c, b, a] := by
      rw [insertBySize, if_neg (by rw [ha, hc]; norm_num [mib]),
        insertBySize, if_neg (by rw [ha, hb]; norm_num [mib]), insertBySize]
    rw [sortBySize]
    simp only [List.foldr_cons, List.foldr_nil]
    rw [s1, s2, s3]
  rw [check_image_memory_limits]
  rw [if_neg (by simp)]
  simp only [List.map_cons, List.map_nil, List.sum_cons, List.sum_nil, ha, hb, hc]
  rw [if_pos (by norm_num [mib, MAX_TOTAL_IMAGE_SIZE])]
  rw [hsort]
  rw [greedyAccept_cons]
  rw [if_neg (by rw [hc]; norm_num [mib, MAX_SINGLE_IMAGE_SIZE])]
  rw [if_pos (by rw [hc]; norm_num [mib, MAX_TOTAL_IMAGE_SIZE])]
  rw [greedyAccept_cons]
  rw [if_neg (by rw [hb]; norm_num [mib, MAX_SINGLE_IMAGE_SIZE])]
  rw [if_pos (by rw [hb, hc]; norm_num [mib, MAX_TOTAL_IMAGE_SIZE])]
  rw [greedyAccept_cons]
  rw [if_pos (by rw [ha]; norm_num [mib, MAX_SINGLE_IMAGE_SIZE])]
  rfl

/-- Witness for `check_image_memory_limits_branches` at three concrete images of
60, 30 and 20 MiB of zero bytes. -/
theorem check_image_memory_limits_branches_witness :
    check_image_memory_limits
        [mkImg (60 * mib) "a", mkImg (30 * mib) "b", mkImg (20 * mib) "c"] =
      [mkImg (20 * mib) "c", mkImg (30 * mib) "b"] :=
  check_image_memory_limits_branches.2 _ _ _
    (imgSize_mkImg (60 * mib) "a") (imgSize_mkImg (30 * mib) "b")
    (imgSize_mkImg (20 * mib) "c")

/-- C8: with deduplication enabled, `_deduplicate_images` returns the subsequence
of the input keeping, for each distinct CRC-32 checksum, exactly the first image
bearing it, in original input order (`keptFirst`); the empty input gives the empty
output; and two byte-identical images with different filenames yield exactly the
first one. -/
theorem deduplicate_images_keeps_first :
    (∀ images, deduplicate_images true images = keptFirst [] images) ∧
    deduplicate_images true ([] : List ExtractedImage) = [] ∧
    deduplicate_images true
        [{ data := [1, 2, 3], format := "png", filename := some "a.png" },
         { data := [1, 2, 3], format := "png", filename := some "b.png" }] =
      [{ data := [1, 2, 3], format := "png", filename := some "a.png" }] := by
  refine ⟨?_, rfl, by decide⟩
  intro images
  rw [deduplicate_images]
  by_cases h : images = []
  · subst h; simp [keptFirst]
  · rw [if_neg (by simp [h])]
    exact dedupGo_eq_keptFirst images [] [] (by simp)

/-- C9: deduplication is idempotent — for every toggle value and every image list,
applying `_deduplicate_images` twice equals applying it once. -/
theorem deduplicate_images_idempotent (deduplicate : Bool)
    (images : List ExtractedImage) :
    deduplicate_images deduplicate (deduplicate_images deduplicate images) =
      deduplicate_images deduplicate images := by
  cases deduplicate with
  | false => simp [deduplicate_images]
  | true =>
    by_cases h : images = []
    · subst h; rfl
    · have hres : deduplicate_images true images = dedupGo [] images := by
        rw [deduplicate_images, if_neg (by simp [h])]
      rw [hres, deduplicate_images]
      by_cases h2 : dedupGo [] images = []
      · rw [if_pos (by simp [h2])]
      · rw [if_neg (by simp [h2])]
        exact dedupGo_self _ [] (dedupGo_nodup images []).1
          (fun y _ => List.not_mem_nil _)

/-! ## OCR backend configuration resolution (`_config_for_backend`, `_base.py`
lines 178–203)

The three backend configuration dataclasses (`TesseractConfig`, `EasyOCRConfig`,
`PaddleOCRConfig`) live in `kreuzberg._types`, outside the translated sources;
`_config_for_backend` manipulates them only through `dataclasses.asdict` — flat
field-name-to-value mappings — and `dict.update`.  We therefore model a
configuration record as its `asdict` image, a mapping `String → Option CfgVal`,
and pass each backend's default mapping (`asdict(TesseractConfig())`, …) as a
parameter. -/

/-- A configuration field value (the distinctions beyond equality are irrelevant
to the resolver, which moves values around opaquely). -/
inductive CfgVal where
  | bool : Bool → CfgVal
  | str : String → CfgVal
  | nat : Nat → CfgVal
  deriving Repr, DecidableEq

/-- A flattened configuration mapping, the shape produced by `dataclasses.asdict`. -/
def CfgMap : Type := String → Option CfgVal

/-- Model of `self.config.ocr_config`: a caller-supplied backend configuration record,
tagged with its declared dataclass type, carrying its `asdict` field mapping. -/
inductive OcrConfig where
  | tesseract : CfgMap → OcrConfig
  | easyocr : CfgMap → OcrConfig
  | paddleocr : CfgMap → OcrConfig

/-- Model of `cfg.update(asdict(override))`: keys present in the override replace the
defaults, keys absent from it are retained. -/
def dictUpdate (d f : CfgMap) : CfgMap :=
  fun k => match f k with
    | some v => some v
    | none => d k

/-- The assignment `cfg["use_cache"] = self.config.use_cache`. -/
def setUseCache (use_cache : Bool) (d : CfgMap) : CfgMap :=
  fun k => if k = "use_cache" then some (.bool use_cache) else d k

/-- The default configuration of the requested backend as selected by the
fall-through chain at the bottom of `_config_for_backend`: `tesseract` and
`easyocr` by name, anything else falls to `PaddleOCRConfig()`. -/
def defaultsFor (tessD easyD paddD : CfgMap) (backend_name : String) : CfgMap :=
  if backend_name = "tesseract" then tessD
  else if backend_name = "easyocr" then easyD
  else paddD

/-- Translation of `_config_for_backend` (`_base.py`, lines 178–203): when a caller override is
present and both the requested backend name and the override's dataclass type
match one of the three known backends, overlay the override's fields onto that
backend's defaults; otherwise fall back to the requested backend's defaults; in
every case overwrite `use_cache` with the document-level flag. -/
def config_for_backend (tessD easyD paddD : CfgMap) (backend_name : String)
    (ocr_config : Option OcrConfig) (use_cache : Bool) : CfgMap :=
  let fallback := setUseCache use_cache (defaultsFor tessD easyD paddD backend_name)
  match ocr_config with
  | some (.tesseract f) =>
    if backend_name = "tesseract" then setUseCache use_cache (dictUpdate tessD f)
    else fallback
  | some (.easyocr f) =>
    if backend_name = "easyocr" then setUseCache use_cache (dictUpdate easyD f)
    else fallback
  | some (.paddleocr f) =>
    if backend_name = "paddleocr" then setUseCache use_cache (dictUpdate paddD f)
    else fallback
  | none => fallback

/-- The spec's notion of a "type-matching" override: the override's declared
dataclass type corresponds to the requested backend name. -/
def matchesBackend (backend_name : String) : OcrConfig → Bool
  | .tesseract _ => backend_name = "tesseract"
  | .easyocr _ => backend_name = "easyocr"
  | .paddleocr _ => backend_name = "paddleocr"

/-- The field mapping carried by an override record. -/
def fieldsOf : OcrConfig → CfgMap
  | .tesseract f => f
  | .easyocr f => f
  | .paddleocr f => f

/-- C5: the resolved configuration's `use_cache` field always equals the
document-level cache flag; with no override every other field equals the requested
backend's defaults; a type-matching override has its fields overlaid onto the
defaults; a non-type-matching override is not merged, leaving exactly the backend
defaults plus the cache flag. -/
theorem config_for_backend_resolution (tessD easyD paddD : CfgMap)
    (backend_name : String) (ocr_config : Option OcrConfig) (use_cache : Bool) :
    (config_for_backend tessD easyD paddD backend_name ocr_config use_cache
        "use_cache" = some (.bool use_cache)) ∧
    (ocr_config = none → ∀ k, k ≠ "use_cache" →
      config_for_backend tessD easyD paddD backend_name ocr_config use_cache k =
        defaultsFor tessD easyD paddD backend_name k) ∧
    (∀ oc, ocr_config = some oc → matchesBackend backend_name oc = true →
      ∀ k, k ≠ "use_cache" →
        config_for_backend tessD easyD paddD backend_name ocr_config use_cache k =
          dictUpdate (defaultsFor tessD easyD paddD backend_name) (fieldsOf oc) k) ∧
    (∀ oc, ocr_config = some oc → matchesBackend backend_name oc = false →
      ∀ k, k ≠ "use_cache" →
        config_for_backend tessD easyD paddD backend_name ocr_config use_cache k =
          defaultsFor tessD easyD paddD backend_name k) := by
  refine ⟨?_, ?_, ?_, ?_⟩
  · rcases ocr_config with _ | oc
    · simp [config_for_backend, setUseCache]
    · rcases oc with f | f | f <;>
        · rw [config_for_backend]
          split <;> simp [setUseCache]
  · rintro rfl k hk
    simp [config_for_backend, setUseCache, hk]
  · rintro oc rfl hmatch k hk
    rcases oc with f | f | f <;>
      · simp only [matchesBackend, decide_eq_true_eq] at hmatch
        simp [config_for_backend, hmatch, setUseCache, hk, defaultsFor, fieldsOf]
  · rintro oc rfl hmatch k hk
    rcases oc with f | f | f <;>
      · simp only [matchesBackend, decide_eq_false_iff_not] at hmatch
        simp [config_for_backend, hmatch, setUseCache, hk]

/-! Sample default mappings used only to instantiate the resolver theorems at
concrete inputs. -/

/-- A sample stand-in for `asdict(TesseractConfig())`. -/
def sampleTessDefaults : CfgMap :=
  fun k => if k = "language" then some (.str "eng")
    else if k = "psm" then some (.nat 3)
    else if k = "use_cache" then some (.bool true)
    else none

/-- A sample stand-in for `asdict(EasyOCRConfig())`. -/
def sampleEasyDefaults : CfgMap :=
  fun k => if k = "language" then some (.str "en")
    else if k = "use_cache" then some (.bool true)
    else none

/-- A sample stand-in for `asdict(PaddleOCRConfig())`. -/
def samplePaddleDefaults : CfgMap :=
  fun k => if k = "language" then some (.str "en")
    else if k = "use_angle_cls" then some (.bool true)
    else if k = "use_cache" then some (.bool true)
    else none

/-- Witness for `config_for_backend_resolution`: backend `"tesseract"`, no
override, cache flag `false` resolves to cache `false` and the tesseract default
for every other field (here `language = "eng"`). -/
theorem config_for_backend_resolution_witness :
    config_for_backend sampleTessDefaults sampleEasyDefaults samplePaddleDefaults
        "tesseract" none false "use_cache" = some (.bool false) ∧
    config_for_backend sampleTessDefaults sampleEasyDefaults samplePaddleDefaults
        "tesseract" none false "language" = some (.str "eng") :=
  ⟨(config_for_backend_resolution sampleTessDefaults sampleEasyDefaults
      samplePaddleDefaults "tesseract" none false).1,
   ((config_for_backend_resolution sampleTessDefaults sampleEasyDefaults
      samplePaddleDefaults "tesseract" none false).2.1 rfl "language"
        (by decide)).trans rfl⟩

/-- C10: for every backend name other than `"tesseract"` and `"easyocr"` —
including names denoting no existing backend — the resolver returns PaddleOCR's
defaults with only `use_cache` overwritten, overlaying a PaddleOCR override
exactly when the requested name is `"paddleocr"` (the type-matching case); the
resolver is total, signalling no error for an unrecognized name. -/
theorem config_for_backend_unrecognized (tessD easyD paddD : CfgMap)
    (backend_name : String) (ocr_config : Option OcrConfig) (use_cache : Bool)
    (h1 : backend_name ≠ "tesseract") (h2 : backend_name ≠ "easyocr") :
    (config_for_backend tessD easyD paddD backend_name ocr_config use_cache
        "use_cache" = some (.bool use_cache)) ∧
    (∀ f, ocr_config = some (.paddleocr f) → backend_name = "paddleocr" →
      ∀ k, k ≠ "use_cache" →
        config_for_backend tessD easyD paddD backend_name ocr_config use_cache k =
          dictUpdate paddD f k) ∧
    ((∀ f, ¬(ocr_config = some (.paddleocr f) ∧ backend_name = "paddleocr")) →
      ∀ k, k ≠ "use_cache" →
        config_for_backend tessD easyD paddD backend_name ocr_config use_cache k =
          paddD k) := by
  have hdef : defaultsFor tessD easyD paddD backend_name = paddD := by
    simp [defaultsFor, h1, h2]
  refine ⟨(config_for_backend_resolution tessD easyD paddD backend_name
      ocr_config use_cache).1, ?_, ?_⟩
  · rintro f rfl hname k hk
    have := (config_for_backend_resolution tessD easyD paddD backend_name
      (some (.paddleocr f)) use_cache).2.2.1 (.paddleocr f) rfl
      (by simp [matchesBackend, hname]) k hk
    rwa [hdef, fieldsOf] at this
  · intro hno k hk
    rcases ocr_config with _ | oc
    · have := (config_for_backend_resolution tessD easyD paddD backend_name
        none use_cache).2.1 rfl k hk
      rwa [hdef] at this
    · have hmatch : matchesBackend backend_name oc = false := by
        rcases oc with f | f | f
        · simp [matchesBackend, h1]
        · simp [matchesBackend, h2]
        · have := hno f
          simp only [not_and, eq_self_iff_true, forall_true_left] at this
          simp [matchesBackend, this]
      have := (config_for_backend_resolution tessD easyD paddD backend_name
        (some oc) use_cache).2.2.2 oc rfl hmatch k hk
      rwa [hdef] at this

/-- Witness for `config_for_backend_unrecognized`: an unknown backend name with a
PaddleOCR-typed override supplied still resolves to the PaddleOCR defaults plus
the cache flag (the override does not type-match the unknown name). -/
theorem config_for_backend_unrecognized_witness :
    config_for_backend sampleTessDefaults sampleEasyDefaults samplePaddleDefaults
        "no_such_backend" (some (.paddleocr (fun _ => some (.str "override"))))
        true "use_cache" = some (.bool true) ∧
    config_for_backend sampleTessDefaults sampleEasyDefaults samplePaddleDefaults
        "no_such_backend" (some (.paddleocr (fun _ => some (.str "override"))))
        true "language" = some (.str "en") :=
  ⟨(config_for_backend_unrecognized sampleTessDefaults sampleEasyDefaults
      samplePaddleDefaults "no_such_backend"
      (some (.paddleocr (fun _ => some (.str "override")))) true
      (by decide) (by decide)).1,
   ((config_for_backend_unrecognized sampleTessDefaults sampleEasyDefaults
      samplePaddleDefaults "no_such_backend"
      (some (.paddleocr (fun _ => some (.str "override")))) true
      (by decide) (by decide)).2.2
      (fun f => by rintro ⟨-, h⟩; exact absurd h (by decide))
      "language" (by decide)).trans rfl⟩

/-! ## Async OCR dispatch (`Extractor._process_images_with_ocr`, `_base.py`
lines 167–267) -/

/-- The document-level extraction configuration, restricted to the fields
`_process_images_with_ocr` reads (their shapes are taken from their use in
`_base.py`).  The caller-supplied `ocr_config` override is handled separately by
`config_for_backend`; the dispatcher forwards the resolved mapping to the backend
opaquely, so it does not appear here. -/
structure ExtractionConfig where
  ocr_extracted_images : Bool
  image_ocr_backend : Option String
  ocr_backend : Option String
  image_ocr_formats : List String
  image_ocr_min_dimensions : Nat × Nat
  image_ocr_max_dimensions : Nat × Nat
  deduplicate_images : Bool
  use_cache : Bool
  deriving Repr, DecidableEq

/-- The empty placeholder result attached to skipped or failed outcomes:
`ExtractionResult(content="", mime_type="text/plain", metadata={})`. -/
def emptyOcrResult : ExtractionResult :=
  { content := "", mime_type := "text/plain", metadata := [] }

/-- A skipped outcome carrying the given reason. -/
def skipResult (img : ExtractedImage) (reason : String) : ImageOCRResult :=
  { image := img, ocr_result := emptyOcrResult, skipped_reason := some reason }

/-- Python `str.lower()` on a format tag, mapped characterwise (kernel-reducible,
unlike `String.toLower` whose `mapAux` does not unfold definitionally). -/
def lowerStr (s : String) : String := ⟨s.data.map Char.toLower⟩

/-- The per-image gating decision of the dispatch loop (`_base.py`, lines
228–261): `some reason` means the image is skipped before dispatch, `none` means
it is scheduled for OCR.  The rules apply in order, first match winning. -/
def gate (cfg : ExtractionConfig) (img : ExtractedImage) : Option String :=
  if lowerStr img.format ∉ cfg.image_ocr_formats then
    some ("Unsupported format: " ++ img.format)
  else
    match img.dimensions with
    | some (w, h) =>
      if w < cfg.image_ocr_min_dimensions.1 ∨ h < cfg.image_ocr_min_dimensions.2 then
        some ("Too small: " ++ toString w ++ "x" ++ toString h)
      else if w > cfg.image_ocr_max_dimensions.1 ∨ h > cfg.image_ocr_max_dimensions.2 then
        some ("Too large: " ++ toString w ++ "x" ++ toString h)
      else none
    | none => none

/-- One concurrent OCR unit (`_ocr_one`, `_base.py` lines 214–226).  Decoding the
image bytes and calling the backend are effectful and may raise; they are modelled
by the oracle `run` returning `Except` (error = exception message), and the
measured wall-clock duration by the oracle `dur`.  A success wraps the backend
result with timing and no confidence; any exception is caught inside the unit and
converted to a skipped outcome with an empty placeholder result. -/
def ocrOne (run : ExtractedImage → Except String ExtractionResult)
    (dur : ExtractedImage → Nat) (img : ExtractedImage) : ImageOCRResult :=
  match run img with
  | .ok res =>
    { image := img, ocr_result := res, confidence_score := none,
      processing_time := some (dur img) }
  | .error e =>
    { image := img, ocr_result := emptyOcrResult,
      skipped_reason := some ("OCR failed: " ++ e) }

/-- The gating loop of `_process_images_with_ocr`: examine images in order,
accumulating skipped-before-dispatch outcomes and the scheduled task list. -/
def gateLoop (cfg : ExtractionConfig) :
    List ExtractedImage → (List ImageOCRResult × List ExtractedImage)
  | [] => ([], [])
  | img :: rest =>
    let (rs, ts) := gateLoop cfg rest
    match gate cfg img with
    | some reason => (skipResult img reason :: rs, ts)
    | none => (rs, img :: ts)

/-- The images that survive deduplication followed by memory-limit filtering
(`_base.py`, lines 171–172). -/
def survivorsOf (cfg : ExtractionConfig) (images : List ExtractedImage) :
    List ExtractedImage :=
  check_image_memory_limits (deduplicate_images cfg.deduplicate_images images)

/-- Translation of `Extractor._process_images_with_ocr` (`_base.py`, lines 167–267): short-circuit
on empty input or disabled image OCR; deduplicate, apply the memory filter; resolve
the backend name (image-specific backend falling back to the general one, `none`
meaning no OCR requested); gate each image; run the scheduled tasks.

Modelled from the spec: `run_taskgroup_batched` (in `kreuzberg._utils._sync`,
outside the translated sources) awaits the scheduled tasks with bounded batching
and returns their results in task submission order, so the dispatched outcomes are
appended as the submission-ordered map of `ocrOne` over the scheduled images. -/
def process_images_with_ocr (cfg : ExtractionConfig)
    (run : ExtractedImage → Except String ExtractionResult)
    (dur : ExtractedImage → Nat) (images : List ExtractedImage) :
    List ImageOCRResult :=
  if images = [] ∨ ¬cfg.ocr_extracted_images then []
  else
    match cfg.image_ocr_backend.orElse (fun _ => cfg.ocr_backend) with
    | none => []
    | some _ =>
      let (skips, tasks) := gateLoop cfg (survivorsOf cfg images)
      skips ++ tasks.map (ocrOne run dur)

/-- The gating loop splits the examined images into the gated-out outcomes, in
examination order, and the scheduled images, in examination order. -/
theorem gateLoop_eq (cfg : ExtractionConfig) (xs : List ExtractedImage) :
    gateLoop cfg xs =
      (xs.filterMap (fun i => (gate cfg i).map (skipResult i)),
       xs.filter (fun i => (gate cfg i).isNone)) := by
  induction xs with
  | nil => rfl
  | cons img rest ih =>
    show (let (rs, ts) := gateLoop cfg rest
          match gate cfg img with
          | some reason => (skipResult img reason :: rs, ts)
          | none => (rs, img :: ts)) = _
    rw [ih]
    cases hg : gate cfg img with
    | some reason => simp [List.filterMap_cons, List.filter_cons, hg]
    | none => simp [List.filterMap_cons, List.filter_cons, hg]

theorem length_skips_add_scheduled (cfg : ExtractionConfig)
    (xs : List ExtractedImage) :
    (xs.filterMap (fun i => (gate cfg i).map (skipResult i))).length +
      (xs.filter (fun i => (gate cfg i).isNone)).length = xs.length := by
  induction xs with
  | nil => rfl
  | cons img rest ih =>
    cases hg : gate cfg img with
    | some r =>
      simp [List.filterMap_cons, List.filter_cons, hg]
      omega
    | none =>
      simp [List.filterMap_cons, List.filter_cons, hg]
      omega

theorem gateLoop_length (cfg : ExtractionConfig) (xs : List ExtractedImage) :
    (gateLoop cfg xs).1.length + (gateLoop cfg xs).2.length = xs.length := by
  rw [gateLoop_eq]
  exact length_skips_add_scheduled cfg xs

/-- C3: when the operation runs (non-empty input, image OCR enabled, a backend
name resolvable), `_process_images_with_ocr` returns the gated-out outcomes in
examination order followed by the dispatched outcomes in submission order, with
exactly one outcome per image surviving deduplication and memory filtering; empty
input, disabled image OCR, no resolvable backend, or no surviving image each give
the empty output for every OCR oracle (no OCR invoked). -/
theorem process_images_with_ocr_composition (cfg : ExtractionConfig)
    (run : ExtractedImage → Except String ExtractionResult)
    (dur : ExtractedImage → Nat) (images : List ExtractedImage) :
    (images ≠ [] → cfg.ocr_extracted_images = true →
      (cfg.image_ocr_backend.orElse (fun _ => cfg.ocr_backend)).isSome →
      process_images_with_ocr cfg run dur images =
        (survivorsOf cfg images).filterMap
            (fun i => (gate cfg i).map (skipResult i)) ++
          ((survivorsOf cfg images).filter
            (fun i => (gate cfg i).isNone)).map (ocrOne run dur) ∧
      (process_images_with_ocr cfg run dur images).length =
        (survivorsOf cfg images).length) ∧
    (images = [] → process_images_with_ocr cfg run dur images = []) ∧
    (cfg.ocr_extracted_images = false →
      process_images_with_ocr cfg run dur images = []) ∧
    (cfg.image_ocr_backend = none → cfg.ocr_backend = none →
      process_images_with_ocr cfg run dur images = []) ∧
    (survivorsOf cfg images = [] →
      process_images_with_ocr cfg run dur images = []) := by
  refine ⟨?_, ?_, ?_, ?_, ?_⟩
  · intro hne hen hsome
    obtain ⟨b, hb⟩ := Option.isSome_iff_exists.mp hsome
    have hmain : process_images_with_ocr cfg run dur images =
        (gateLoop cfg (survivorsOf cfg images)).1 ++
          (gateLoop cfg (survivorsOf cfg images)).2.map (ocrOne run dur) := by
      rw [process_images_with_ocr, if_neg (by simp [hne, hen]), hb]
    constructor
    · rw [hmain, gateLoop_eq]
    · rw [hmain, List.length_append, List.length_map]
      exact gateLoop_length cfg (survivorsOf cfg images)
  · intro h
    rw [process_images_with_ocr, if_pos (Or.inl h)]
  · intro h
    rw [process_images_with_ocr, if_pos (Or.inr (by rw [h]; exact Bool.false_ne_true))]
  · intro h1 h2
    rw [process_images_with_ocr]
    by_cases hshort : images = [] ∨ ¬cfg.ocr_extracted_images
    · rw [if_pos hshort]
    · rw [if_neg hshort, h1, h2]
      rfl
  · intro hsurv
    rw [process_images_with_ocr]
    by_cases hshort : images = [] ∨ ¬cfg.ocr_extracted_images
    · rw [if_pos hshort]
    · rw [if_neg hshort, hsurv]
      cases cfg.image_ocr_backend.orElse (fun _ => cfg.ocr_backend) <;> rfl

theorem gate_first_match (cfg : ExtractionConfig) (img : ExtractedImage) :
    (lowerStr img.format ∉ cfg.image_ocr_formats →
      gate cfg img = some ("Unsupported format: " ++ img.format)) ∧
    (∀ w h, lowerStr img.format ∈ cfg.image_ocr_formats →
      img.dimensions = some (w, h) →
      (w < cfg.image_ocr_min_dimensions.1 ∨ h < cfg.image_ocr_min_dimensions.2) →
      gate cfg img = some ("Too small: " ++ toString w ++ "x" ++ toString h)) ∧
    (∀ w h, lowerStr img.format ∈ cfg.image_ocr_formats →
      img.dimensions = some (w, h) →
      ¬(w < cfg.image_ocr_min_dimensions.1 ∨ h < cfg.image_ocr_min_dimensions.2) →
      (w > cfg.image_ocr_max_dimensions.1 ∨ h > cfg.image_ocr_max_dimensions.2) →
      gate cfg img = some ("Too large: " ++ toString w ++ "x" ++ toString h)) ∧
    (∀ w h, lowerStr img.format ∈ cfg.image_ocr_formats →
      img.dimensions = some (w, h) →
      ¬(w < cfg.image_ocr_min_dimensions.1 ∨ h < cfg.image_ocr_min_dimensions.2) →
      ¬(w > cfg.image_ocr_max_dimensions.1 ∨ h > cfg.image_ocr_max_dimensions.2) →
      gate cfg img = none) ∧
    (lowerStr img.format ∈ cfg.image_ocr_formats → img.dimensions = none →
      gate cfg img = none) := by
  refine ⟨?_, ?_, ?_, ?_, ?_⟩
  · intro hfmt
    rw [gate, if_pos hfmt]
  · intro w h hfmt hdim hsmall
    rw [gate, if_neg (by simp [hfmt]), hdim]
    simp only [if_pos hsmall]
  · intro w h hfmt hdim hsmall hlarge
    rw [gate, if_neg (by simp [hfmt]), hdim]
    simp only [if_neg hsmall, if_pos hlarge]
  · intro w h hfmt hdim hsmall hlarge
    rw [gate, if_neg (by simp [hfmt]), hdim]
    simp only [if_neg hsmall, if_neg hlarge]
  · intro hfmt hdim
    rw [gate, if_neg (by simp [hfmt]), hdim]

/-- The gating configuration of the claim's concrete scenario: allow-list
{png, jpg}, minimum dimensions (50, 50), maximum dimensions (4000, 4000). -/
def gateCfg : ExtractionConfig :=
  { ocr_extracted_images := true, image_ocr_backend := some "tesseract",
    ocr_backend := none, image_ocr_formats := ["png", "jpg"],
    image_ocr_min_dimensions := (50, 50), image_ocr_max_dimensions := (4000, 4000),
    deduplicate_images := true, use_cache := false }

/-- C6: for every image examined by the async dispatcher's gate the rules apply in
order with the first match winning — unsupported format tag, then known dimensions
below the minimum, then known dimensions above the maximum, then scheduled
(including unknown dimensions) — and with allow-list {png, jpg} and bounds
(50,50)–(4000,4000) a "gif" image is skipped for format, a 10×10 png for size too
small, a 5000×5000 jpg for size too large, and a 100×100 png is scheduled. -/
theorem gate_rules_ordered :
    (∀ cfg img,
      (lowerStr img.format ∉ cfg.image_ocr_formats →
        gate cfg img = some ("Unsupported format: " ++ img.format)) ∧
      (∀ w h, lowerStr img.format ∈ cfg.image_ocr_formats →
        img.dimensions = some (w, h) →
        (w < cfg.image_ocr_min_dimensions.1 ∨ h < cfg.image_ocr_min_dimensions.2) →
        gate cfg img = some ("Too small: " ++ toString w ++ "x" ++ toString h)) ∧
      (∀ w h, lowerStr img.format ∈ cfg.image_ocr_formats →
        img.dimensions = some (w, h) →
        ¬(w < cfg.image_ocr_min_dimensions.1 ∨ h < cfg.image_ocr_min_dimensions.2) →
        (w > cfg.image_ocr_max_dimensions.1 ∨ h > cfg.image_ocr_max_dimensions.2) →
        gate cfg img = some ("Too large: " ++ toString w ++ "x" ++ toString h)) ∧
      (∀ w h, lowerStr img.format ∈ cfg.image_ocr_formats →
        img.dimensions = some (w, h) →
        ¬(w < cfg.image_ocr_min_dimensions.1 ∨ h < cfg.image_ocr_min_dimensions.2) →
        ¬(w > cfg.image_ocr_max_dimensions.1 ∨ h > cfg.image_ocr_max_dimensions.2) →
        gate cfg img = none) ∧
      (lowerStr img.format ∈ cfg.image_ocr_formats → img.dimensions = none →
        gate cfg img = none)) ∧
    gate gateCfg { data := [1], format := "gif" } = some "Unsupported format: gif" ∧
    gate gateCfg { data := [1], format := "png", dimensions := some (10, 10) } =
      some "Too small: 10x10" ∧
    gate gateCfg { data := [1], format := "jpg", dimensions := some (5000, 5000) } =
      some "Too large: 5000x5000" ∧
    gate gateCfg { data := [1], format := "png", dimensions := some (100, 100) } =
      none :=
  ⟨gate_first_match, by decide, by decide, by decide, by decide⟩

/-- Witness for `gate_rules_ordered` at the concrete "gif" image: its lowercased
format is outside the allow-list, and the gate skips it naming the format. -/
theorem gate_rules_ordered_witness :
    (lowerStr ({ data := [1], format := "gif" } : ExtractedImage).format ∉
        gateCfg.image_ocr_formats) ∧
    gate gateCfg { data := [1], format := "gif" } =
      some ("Unsupported format: " ++
        ({ data := [1], format := "gif" } : ExtractedImage).format) :=
  ⟨by decide, (gate_rules_ordered.1 gateCfg { data := [1], format := "gif" }).1
    (by decide)⟩

/-! ### Per-unit failure isolation (C4) -/

/-- On a list of scheduled images whose OCR calls all succeed, no outcome carries
a skip marker. -/
theorem ocr_all_ok (run : ExtractedImage → Except String ExtractionResult)
    (dur : ExtractedImage → Nat) (ts : List ExtractedImage)
    (h : ∀ t ∈ ts, ∃ r, run t = .ok r) :
    ((ts.map (ocrOne run dur)).filter (fun o => o.skipped_reason.isSome)) = [] ∧
    ((ts.map (ocrOne run dur)).filter (fun o => o.skipped_reason.isNone)).length =
      ts.length := by
  induction ts with
  | nil => exact ⟨rfl, rfl⟩
  | cons t rest ih =>
    obtain ⟨r, hr⟩ := h t (List.mem_cons_self _ _)
    obtain ⟨ih1, ih2⟩ := ih (fun t' ht' => h t' (List.mem_cons_of_mem _ ht'))
    constructor
    · simp only [List.map_cons, List.filter_cons, ocrOne, hr]
      simpa using ih1
    · simp only [List.map_cons, List.filter_cons, ocrOne, hr]
      simpa using ih2

/-- C4: a failure inside one scheduled OCR unit is caught there and converted to a
skipped outcome whose reason carries the exception message over an empty
placeholder result; with the failing unit at any position among otherwise
succeeding units, the batch still yields one outcome per scheduled image, exactly
one outcome carries a skip marker, and the other N−1 carry the normal OCR content
with timing. -/
theorem ocr_unit_failure_isolation
    (run : ExtractedImage → Except String ExtractionResult)
    (dur : ExtractedImage → Nat) (pre post : List ExtractedImage)
    (x : ExtractedImage) (e : String)
    (hx : run x = .error e)
    (hok : ∀ t, t ∈ pre ∨ t ∈ post → ∃ r, run t = .ok r) :
    ocrOne run dur x =
      { image := x, ocr_result := emptyOcrResult,
        skipped_reason := some ("OCR failed: " ++ e) } ∧
    ((pre ++ x :: post).map (ocrOne run dur)).length = (pre ++ x :: post).length ∧
    (((pre ++ x :: post).map (ocrOne run dur)).filter
        (fun o => o.skipped_reason.isSome)).length = 1 ∧
    (((pre ++ x :: post).map (ocrOne run dur)).filter
        (fun o => o.skipped_reason.isNone)).length =
      (pre ++ x :: post).length - 1 ∧
    (∀ t, t ∈ pre ∨ t ∈ post → ∃ r, run t = .ok r ∧ ocrOne run dur t =
      { image := t, ocr_result := r, confidence_score := none,
        processing_time := some (dur t) }) := by
  have hxout : ocrOne run dur x =
      { image := x, ocr_result := emptyOcrResult,
        skipped_reason := some ("OCR failed: " ++ e) } := by
    rw [ocrOne, hx]
  obtain ⟨hpre1, hpre2⟩ := ocr_all_ok run dur pre (fun t ht => hok t (Or.inl ht))
  obtain ⟨hpost1, hpost2⟩ := ocr_all_ok run dur post (fun t ht => hok t (Or.inr ht))
  refine ⟨hxout, List.length_map _ _, ?_, ?_, ?_⟩
  · rw [List.map_append, List.map_cons, List.filter_append, List.filter_cons]
    rw [hpre1, hxout]
    simp only [Option.isSome_some, List.nil_append, ite_true]
    rw [List.length_cons, hpost1]
    rfl
  · rw [List.map_append, List.map_cons, List.filter_append, List.filter_cons]
    rw [hxout]
    simp only [Option.isNone_some, Bool.false_eq_true, ite_false]
    rw [List.length_append, hpre2, hpost2, List.length_append, List.length_cons]
    omega
  · intro t ht
    obtain ⟨r, hr⟩ := hok t ht
    exact ⟨r, hr, by rw [ocrOne, hr]⟩

/-- A sample successful backend result used to instantiate theorems. -/
def sampleOk : ExtractionResult :=
  { content := "recognized text", mime_type := "text/plain", metadata := [] }

/-- A sample schedulable image: png, 100×100. -/
def wPng : ExtractedImage := { data := [1], format := "png", dimensions := some (100, 100) }

/-- A sample image whose OCR call fails in `wErrRun`. -/
def wGif : ExtractedImage := { data := [2], format := "gif" }

/-- A sample OCR oracle that succeeds on every image. -/
def wOkRun : ExtractedImage → Except String ExtractionResult := fun _ => .ok sampleOk

/-- A sample OCR oracle failing exactly on "gif"-tagged images. -/
def wErrRun : ExtractedImage → Except String ExtractionResult :=
  fun i => if i.format = "gif" then .error "backend crashed" else .ok sampleOk

/-- Witness for `process_images_with_ocr_composition`: one schedulable png image,
image OCR enabled, tesseract backend configured. -/
theorem process_images_with_ocr_composition_witness :
    ([wPng] ≠ [] ∧ gateCfg.ocr_extracted_images = true ∧
      (gateCfg.image_ocr_backend.orElse (fun _ => gateCfg.ocr_backend)).isSome) ∧
    process_images_with_ocr gateCfg wOkRun (fun _ => 5) [wPng] =
      (survivorsOf gateCfg [wPng]).filterMap
          (fun i => (gate gateCfg i).map (skipResult i)) ++
        ((survivorsOf gateCfg [wPng]).filter
          (fun i => (gate gateCfg i).isNone)).map (ocrOne wOkRun (fun _ => 5)) :=
  ⟨⟨by decide, rfl, rfl⟩,
   ((process_images_with_ocr_composition gateCfg wOkRun (fun _ => 5) [wPng]).1
      (by decide) rfl rfl).1⟩

/-- Witness for `ocr_unit_failure_isolation`: the failing "gif" unit scheduled
ahead of one succeeding png unit — two outcomes, exactly one skip marker. -/
theorem ocr_unit_failure_isolation_witness :
    wErrRun wGif = .error "backend crashed" ∧
    ((([] ++ wGif :: [wPng]).map (ocrOne wErrRun (fun _ => 3))).filter
        (fun o : ImageOCRResult => o.skipped_reason.isSome)).length = 1 ∧
    ((([] ++ wGif :: [wPng]).map (ocrOne wErrRun (fun _ => 3))).filter
        (fun o : ImageOCRResult => o.skipped_reason.isNone)).length =
      ([] ++ wGif :: [wPng]).length - 1 :=
  ⟨rfl,
   (ocr_unit_failure_isolation wErrRun (fun _ => 3) [] [wPng] wGif "backend crashed"
      rfl (fun t ht => by
        rcases ht with h | h
        · exact absurd h (List.not_mem_nil t)
        · rw [List.mem_singleton.mp h]; exact ⟨sampleOk, rfl⟩)).2.2.1,
   (ocr_unit_failure_isolation wErrRun (fun _ => 3) [] [wPng] wGif "backend crashed"
      rfl (fun t ht => by
        rcases ht with h | h
        · exact absurd h (List.not_mem_nil t)
        · rw [List.mem_singleton.mp h]; exact ⟨sampleOk, rfl⟩)).2.2.2.1⟩

/-! ## Threaded batch OCR runner (`process_batch_images_threaded`,
`sync_paddleocr.py` lines 212–251) -/

/-- Storing one completed future's value: a success stores the backend result at
the future's original index, an exception is converted to the error-marked
`ExtractionResult` built in the `except` branch (content `"Error: {e}"`, metadata
`{"error": str(e)}`). -/
def convertOutcome (r : Except String ExtractionResult) : ExtractionResult :=
  match r with
  | .ok res => res
  | .error e =>
    { content := "Error: " ++ e, mime_type := PLAIN_TEXT_MIME_TYPE,
      metadata := [("error", e)], chunks := [] }

/-- The `as_completed` loop: futures complete in the arbitrary order `completion`
(their original indices); each result is placed into the pre-sized output array at
its original index. -/
def storeResults {α : Type} (ocrOf : α → Except String ExtractionResult)
    (image_paths : List α) (completion : List Nat)
    (init : List (Option ExtractionResult)) : List (Option ExtractionResult) :=
  completion.foldl
    (fun acc i =>
      match image_paths[i]? with
      | some p => acc.set i (some (convertOutcome (ocrOf p)))
      | none => acc)
    init

/-- Translation of `process_batch_images_threaded` (`sync_paddleocr.py`, lines 212–251).  The
per-path OCR call (`process_image_sync_pure`, whose body delegates to the external
PaddleOCR engine) is the oracle `ocrOf`, with `.error e` standing for any exception
it raises (including a missing backend dependency).  When `max_workers` is `None`
the pool size defaults to `min(len(image_paths), multiprocessing.cpu_count())`;
`concurrent.futures.ThreadPoolExecutor` raises
`ValueError("max_workers must be greater than 0")` when that size is not positive,
which with the default happens exactly on the empty path list.  `completion` is
the order in which `as_completed` yields the futures. -/
def process_batch_images_threaded {α : Type}
    (ocrOf : α → Except String ExtractionResult) (image_paths : List α)
    (max_workers : Option Nat) (cpu_count : Nat) (completion : List Nat) :
    Except String (List (Option ExtractionResult)) :=
  let mw := max_workers.getD (min image_paths.length cpu_count)
  if mw = 0 then .error "max_workers must be greater than 0"
  else .ok (storeResults ocrOf image_paths completion
    (List.replicate image_paths.length none))

theorem storeResults_step_length {α : Type}
    (ocrOf : α → Except String ExtractionResult) (image_paths : List α)
    (init : List (Option ExtractionResult)) (i : Nat) :
    (match image_paths[i]? with
      | some p => init.set i (some (convertOutcome (ocrOf p)))
      | none => init).length = init.length := by
  cases image_paths[i]? <;> simp

/-- Index-addressed writes: after processing the completed futures, position `j`
holds the converted outcome of path `j` if future `j` has completed, and is
untouched otherwise. -/
theorem storeResults_get {α : Type} (ocrOf : α → Except String ExtractionResult)
    (image_paths : List α) (completion : List Nat) :
    ∀ (init : List (Option ExtractionResult)), init.length = image_paths.length →
      ∀ j : Nat, (storeResults ocrOf image_paths completion init)[j]? =
        if j ∈ completion ∧ j < image_paths.length then
          (image_paths[j]?).map (fun p => some (convertOutcome (ocrOf p)))
        else init[j]? := by
  induction completion with
  | nil =>
    intro init _ j
    rw [storeResults, List.foldl_nil, if_neg (by simp)]
  | cons i rest ih =>
    intro init hlen j
    have hstep : storeResults ocrOf image_paths (i :: rest) init =
        storeResults ocrOf image_paths rest
          (match image_paths[i]? with
            | some p => init.set i (some (convertOutcome (ocrOf p)))
            | none => init) := by
      rw [storeResults, List.foldl_cons, storeResults]
    rw [hstep, ih _ (by rw [storeResults_step_length]; exact hlen) j]
    by_cases hjr : j ∈ rest ∧ j < image_paths.length
    · rw [if_pos hjr, if_pos ⟨List.mem_cons_of_mem _ hjr.1, hjr.2⟩]
    · rw [if_neg hjr]
      by_cases hji : j = i
      · subst hji
        by_cases hlt : j < image_paths.length
        · have hp : image_paths[j]? = some image_paths[j] :=
            List.getElem?_eq_getElem hlt
          rw [if_pos ⟨List.mem_cons_self _ _, hlt⟩, hp]
          show (init.set j (some (convertOutcome (ocrOf image_paths[j]))))[j]? = _
          rw [List.getElem?_set_eq_of_lt _ (by rw [hlen]; exact hlt)]
          rfl
        · have hp : image_paths[j]? = none := List.getElem?_eq_none (Nat.le_of_not_lt hlt)
          rw [if_neg (fun hc => hlt hc.2), hp]
      · have hcond : ¬(j ∈ i :: rest ∧ j < image_paths.length) := by
          rintro ⟨hmem, hlt⟩
          rcases List.mem_cons.mp hmem with h | h
          · exact hji h
          · exact hjr ⟨h, hlt⟩
        rw [if_neg hcond]
        cases hp : image_paths[i]? with
        | some p =>
          show (init.set i (some (convertOutcome (ocrOf p))))[j]? = _
          rw [List.getElem?_set_ne (fun h => hji h.symm)]
        | none => rfl

/-- C1 (amended to non-empty inputs): for every non-empty path list, positive CPU
count and completion order, the threaded runner returns — without raising — one
result per input path with `output[i]` the converted outcome for `image_paths[i]`
regardless of completion order, a per-path exception being converted into the
error-marked result at its own index only. -/
theorem process_batch_threaded_order {α : Type}
    (ocrOf : α → Except String ExtractionResult) (image_paths : List α)
    (cpu_count : Nat) (completion : List Nat)
    (hne : image_paths ≠ []) (hcpu : 1 ≤ cpu_count)
    (hperm : completion.Perm (List.range image_paths.length)) :
    process_batch_images_threaded ocrOf image_paths none cpu_count completion =
      .ok (image_paths.map (fun p => some (convertOutcome (ocrOf p)))) ∧
    ∀ e p, ocrOf p = .error e → convertOutcome (ocrOf p) =
      { content := "Error: " ++ e, mime_type := PLAIN_TEXT_MIME_TYPE,
        metadata := [("error", e)], chunks := [] } := by
  constructor
  · have hpos : 0 < image_paths.length := List.length_pos.mpr hne
    rw [process_batch_images_threaded]
    simp only [Option.getD_none]
    rw [if_neg (by omega)]
    congr 1
    refine List.ext_getElem? (fun j => ?_)
    rw [storeResults_get ocrOf image_paths completion _
      (List.length_replicate _ _) j]
    by_cases hj : j < image_paths.length
    · have hjmem : j ∈ completion := hperm.mem_iff.mpr (List.mem_range.mpr hj)
      rw [if_pos ⟨hjmem, hj⟩, List.getElem?_map]
    · rw [if_neg (fun hc => hj hc.2),
        List.getElem?_eq_none (le_trans (le_of_eq (List.length_replicate _ _))
          (Nat.le_of_not_lt hj)),
        List.getElem?_eq_none (le_trans (le_of_eq (List.length_map _ _))
          (Nat.le_of_not_lt hj))]
  · intro e p hp
    rw [hp]
    rfl

/-- Witness for `process_batch_threaded_order`: two paths over a failing-then-ok
oracle, futures completing in reverse order, still yield the in-order results. -/
theorem process_batch_threaded_order_witness :
    (([10, 20] : List Nat) ≠ [] ∧ 1 ≤ 2 ∧
      ([1, 0] : List Nat).Perm (List.range ([10, 20] : List Nat).length)) ∧
    process_batch_images_threaded
        (fun p : Nat => if p = 10 then .error "missing backend dependency"
          else .ok sampleOk)
        [10, 20] none 2 [1, 0] =
      .ok ([10, 20].map (fun p => some (convertOutcome
        ((fun p : Nat => if p = 10 then .error "missing backend dependency"
          else .ok sampleOk) p)))) :=
  ⟨⟨by decide, by decide, by decide⟩,
   (process_batch_threaded_order
      (fun p : Nat => if p = 10 then .error "missing backend dependency"
        else .ok sampleOk)
      [10, 20] 2 [1, 0] (by decide) (by decide) (by decide)).1⟩

/-- Counterexample to C1 as stated: on the empty path list with default
`max_workers`, the pool size `min(0, cpu_count) = 0` makes the
`ThreadPoolExecutor` constructor raise before any per-item work — the call does
not return a (empty) result list. -/
theorem process_batch_threaded_empty_raises :
    process_batch_images_threaded (fun _ : Nat => .ok sampleOk) ([] : List Nat)
        none 8 [] = .error "max_workers must be greater than 0" := rfl

end Kreuzberg
